import Mathlib

/-!
Verification of the ExaMol assembly subsystem specification.

The development shallowly embeds the assembly core described by the
specification (executor topology resolution, transport binding, database
loading, search-space caching, the assemble scope and its lifecycle, the
bounded random starter) together with the simulator base class found in
the sources, and proves the specified properties about the embedding.
-/

namespace ExaMol

/-- A topic is a named category of work. -/
abbrev Topic := String

/-- Modelled from the spec: an ExecutorDescriptor from the ComputeConfig
(the source repository supplies these through the parsl Config object,
whose code is not among the sources): an optionally labeled worker pool. -/
structure ExecutorDescriptor where
  label : Option String
  max_workers : Nat
deriving DecidableEq, Repr

/-- Modelled from the spec: a ComputeConfig is an ordered list of executor
descriptors. -/
structure ComputeConfig where
  executors : List ExecutorDescriptor
deriving DecidableEq, Repr

/-- Configuration errors surfaced at assemble time. -/
inductive ConfigurationError where
  | unassignedTopics : List Topic → ConfigurationError
  | invalidTransportShape : ConfigurationError
deriving DecidableEq, Repr

/-- The executors whose label equals the given topic name. -/
def matchedFor (execs : List ExecutorDescriptor) (t : Topic) : List ExecutorDescriptor :=
  execs.filter (fun e => e.label = some t)

/-- The executors carrying no label (catch-all candidates). -/
def unlabeledOf (execs : List ExecutorDescriptor) : List ExecutorDescriptor :=
  execs.filter (fun e => e.label = none)

/-- An assignment of an executor subset to each topic. -/
abbrev ExecutorAssignment := List (Topic × List ExecutorDescriptor)

/-- Modelled from the spec: ExecutorTopologyResolver.resolve (the resolver
itself is not among the sources; only its tests are). Precedence: exact
label match, then the unique unlabeled catch-all executor for unassigned
topics, then the unique executor of the whole config for every topic, else
a configuration error naming the unassigned topics. -/
def resolveTopology (execs : List ExecutorDescriptor) (topics : List Topic) :
    Except ConfigurationError ExecutorAssignment :=
  let unassigned := topics.filter fun t => (matchedFor execs t).isEmpty
  if unassigned.isEmpty then
    .ok (topics.map fun t => (t, matchedFor execs t))
  else if (unlabeledOf execs).length = 1 then
    let c := (unlabeledOf execs).headD ⟨none, 0⟩
    .ok (topics.map fun t =>
      (t, if (matchedFor execs t).isEmpty then [c] else matchedFor execs t))
  else if execs.length = 1 then
    let e := execs.headD ⟨none, 0⟩
    .ok (topics.map fun t => (t, [e]))
  else .error (.unassignedTopics unassigned)

/-- Modelled from the spec: a shared-object store instance, identified by
its name (proxystore Store in the original system, not among the sources). -/
structure StoreInst where
  name : String
deriving DecidableEq, Repr

/-- Modelled from the spec: the three valid shapes of the transport binding
input, plus the shape class covering every other runtime value (the original
accepts a dynamically typed argument). -/
inductive ProxySpec where
  | noProxy : ProxySpec
  | single : StoreInst → ProxySpec
  | mapping : List (Topic × StoreInst) → ProxySpec
  | invalid : ProxySpec
deriving DecidableEq, Repr

/-- Modelled from the spec: TransportBinding.resolve (not among the
sources; only its tests are). Maps every required topic to an optional
store name according to the shape of the binding input. -/
def resolveTransport (p : ProxySpec) (topics : List Topic) :
    Except ConfigurationError (List (Topic × Option String)) :=
  match p with
  | .noProxy => .ok (topics.map fun t => (t, none))
  | .single s => .ok (topics.map fun t => (t, some s.name))
  | .mapping m => .ok (topics.map fun t => (t, (m.lookup t).map StoreInst.name))
  | .invalid => .error .invalidTransportShape

/-- Modelled from the spec: a MoleculeRecord, reduced to the capability the
core requires — identity by canonical identifier (the record model lives in
a store module not among the sources). -/
structure MoleculeRecord where
  identifier : String
deriving DecidableEq, Repr

/-- Insert a record into the in-memory index keyed by canonical identifier;
a duplicate identifier overwrites the earlier entry. -/
def insertRecord (db : List MoleculeRecord) (r : MoleculeRecord) : List MoleculeRecord :=
  db.filter (fun x => x.identifier ≠ r.identifier) ++ [r]

/-- Modelled from the spec: eagerly load the parsed lines of a
newline-delimited JSON record file into the in-memory index. -/
def loadRecords (lines : List MoleculeRecord) : List MoleculeRecord :=
  lines.foldl insertRecord []

/-- Modelled from the spec: the database reference accepted by
DatabaseLoader.open — either a record file (given here by its parsed lines)
or an already-constructed store object. -/
inductive DatabaseRef where
  | file : List MoleculeRecord → DatabaseRef
  | store : List MoleculeRecord → DatabaseRef
deriving DecidableEq, Repr

/-- Modelled from the spec: DatabaseLoader.open — a file is loaded eagerly,
an existing store object is used as-is. -/
def openDatabase : DatabaseRef → List MoleculeRecord
  | .file lines => loadRecords lines
  | .store s => s

/-- The identifier-based membership test of the opened store. -/
def containsId (db : List MoleculeRecord) (ident : String) : Bool :=
  db.any (fun r => r.identifier == ident)

/-- Modelled from the spec: the fields that affect search-space
preprocessing and therefore enter the cache key — the search-space file
list plus solution and thinker options such as the inference chunk size. -/
structure CacheSettings where
  search_space : List String
  solution_options : List String
  inference_chunk_size : Nat
deriving DecidableEq, Repr

/-- Modelled from the spec: ConfigFingerprint.fingerprint — a deterministic
digest that changes whenever any relevant field changes; the digest is
modelled by the settings value itself, the canonical injective digest. -/
def fingerprint (s : CacheSettings) : CacheSettings := s

/-- Modelled from the spec: the cache descriptor persisted at
run_dir/search-space/settings.json — the fingerprint plus a serialized
snapshot of the settings that produced the cached artifact. Equality of
descriptor values models byte-identical file content, since serialization
is deterministic (stable key ordering and numeric formatting). -/
structure CacheDescriptor where
  fp : CacheSettings
  snapshot : CacheSettings
deriving DecidableEq, Repr

/-- Modelled from the spec: the preprocessed search-space artifact,
identified by the settings it was built from (build_fn is deterministic in
the settings, per the determinism invariant of the Specification). -/
structure Artifact where
  built_from : CacheSettings
deriving DecidableEq, Repr

/-- The deterministic build function invoked on a cache miss. -/
def buildArtifact (s : CacheSettings) : Artifact := ⟨s⟩

/-- Modelled from the spec: the on-disk state of the search-space cache
under one run directory. -/
structure CacheState where
  descriptor : Option CacheDescriptor
  artifact : Option Artifact
deriving DecidableEq, Repr

/-- Modelled from the spec: SearchSpaceCache.get_or_build — if the stored
fingerprint equals the recomputed one, the cached artifact is returned and
the on-disk state is untouched; otherwise the artifact is rebuilt and both
descriptor and artifact are atomically replaced. A missing or partial
descriptor/artifact pair is treated as an invalid cache and rebuilt. -/
def getOrBuild (st : CacheState) (settings : CacheSettings) : Artifact × CacheState :=
  let fp := fingerprint settings
  match st.descriptor, st.artifact with
  | some d, some a =>
      if d.fp = fp then (a, st)
      else
        let a2 := buildArtifact settings
        (a2, ⟨some ⟨fp, settings⟩, some a2⟩)
  | _, _ =>
      let a2 := buildArtifact settings
      (a2, ⟨some ⟨fp, settings⟩, some a2⟩)

/-- Modelled from the spec: a SolutionSpecification — the solution strategy
declares the set of required topics itself (plus how many to run). -/
structure SolutionSpecification where
  topics : List Topic
  num_to_run : Nat
deriving DecidableEq, Repr

/-- Modelled from the spec: thinker construction options; the inference
chunk size participates in the cache key. -/
structure ThinkerOptions where
  inference_chunk_size : Nat
deriving DecidableEq, Repr

/-- Modelled from the spec: the Specification composition root, holding the
configuration consumed by assemble. -/
structure ExaMolSpecification where
  database : DatabaseRef
  search_space : List String
  solution : SolutionSpecification
  compute_config : ComputeConfig
  proxystore : ProxySpec
  thinker_options : ThinkerOptions
  run_dir : String
deriving DecidableEq, Repr

/-- The cache settings derived from a specification. -/
def settingsOf (spec : ExaMolSpecification) : CacheSettings :=
  ⟨spec.search_space, [toString spec.solution.num_to_run],
    spec.thinker_options.inference_chunk_size⟩

/-- Modelled from the spec: the QueueSystem handed to the caller (the doer),
owning one queue per topic backed by the assigned executors, with the
resolved transport name per topic. -/
structure QueueSystem where
  topics : List Topic
  assignment : ExecutorAssignment
  executors : List ExecutorDescriptor
  proxystore_name : List (Topic × Option String)
deriving DecidableEq, Repr

/-- Modelled from the spec: the Thinker as far as assembly observes it —
bound to the queues and the resolved search-space artifact. -/
structure Thinker where
  queues : QueueSystem
  search_space_artifact : Artifact
deriving DecidableEq, Repr

/-- Modelled from the spec: Specification.assemble — open the store,
materialize the search-space cache, resolve the executor topology from the
compute config and the topics the solution declares, resolve transport
bindings, and construct the doer and thinker. The cache state is threaded
explicitly; it is updated even when a later resolution step fails, since
the cache step precedes topology resolution. -/
def assemble (spec : ExaMolSpecification) (st : CacheState) :
    Except ConfigurationError (QueueSystem × Thinker × List MoleculeRecord) × CacheState :=
  let store := openDatabase spec.database
  let built := getOrBuild st (settingsOf spec)
  let st1 := built.2
  match resolveTopology spec.compute_config.executors spec.solution.topics with
  | .error e => (.error e, st1)
  | .ok asg =>
      match resolveTransport spec.proxystore spec.solution.topics with
      | .error e => (.error e, st1)
      | .ok names =>
          let doer : QueueSystem :=
            ⟨spec.solution.topics, asg, (asg.foldl (fun acc p => acc ++ p.2) []).dedup, names⟩
          (.ok (doer, ⟨doer, built.1⟩, store), st1)

/-- Modelled from the spec: the QueueSystem lifecycle states. -/
inductive QState where
  | created : QState
  | started : QState
  | draining : QState
  | stopped : QState
deriving DecidableEq, Repr

/-- Modelled from the spec: the runtime resources owned by one assemble
scope — the queue-system state and whether the store handle is open. -/
structure RuntimeState where
  queueState : QState
  storeOpen : Bool
deriving DecidableEq, Repr

/-- The atomic actions an assemble scope performs on its runtime state. -/
inductive ScopeAction where
  | openStore : ScopeAction
  | startQueues : ScopeAction
  | runBody : Bool → ScopeAction
  | drainQueues : ScopeAction
  | stopQueues : ScopeAction
  | closeStore : ScopeAction
deriving DecidableEq, Repr

/-- The effect of one scope action on the runtime state; running the caller
body does not change the resource state, whether it returns or raises. -/
def stepAction (rt : RuntimeState) : ScopeAction → RuntimeState
  | .openStore => { rt with storeOpen := true }
  | .startQueues => { rt with queueState := .started }
  | .runBody _ => rt
  | .drainQueues => { rt with queueState := .draining }
  | .stopQueues => { rt with queueState := .stopped }
  | .closeStore => { rt with storeOpen := false }

/-- Modelled from the spec: the action sequence of one assemble scope. The
teardown actions (drain, stop, close) run on every exit path — after a
normal body return and, via the finally discipline of the scoped resource,
after a body that raises. -/
def scopeActions (bodyOk : Bool) : List ScopeAction :=
  [ScopeAction.openStore, ScopeAction.startQueues, ScopeAction.runBody bodyOk,
   ScopeAction.drainQueues, ScopeAction.stopQueues, ScopeAction.closeStore]

/-- The initial runtime state: queues allocated but not started, store not
yet open. -/
def initialRuntime : RuntimeState := ⟨.created, false⟩

/-- Modelled from the spec: run one assemble scope to completion, returning
the final runtime state; when the body raised, the error propagates after
teardown has run. -/
def runAssembleScope (bodyOk : Bool) : RuntimeState × Option String :=
  let final := (scopeActions bodyOk).foldl stepAction initialRuntime
  (final, if bodyOk then none else some "body error")

/-- The queue-state trace of one scope: the state after every action. -/
def scopeTrace (bodyOk : Bool) : List QState :=
  ((scopeActions bodyOk).scanl stepAction initialRuntime).map RuntimeState.queueState

/-- Modelled from the spec: the bounded random sampler configuration
(RandomStarter from the start module, not among the sources; only its
tests are). The threshold field governs when a starter is used at all and
does not enter select. -/
structure RandomStarter where
  threshold : Nat
  min_to_select : Nat
  max_to_consider : Option Nat
deriving DecidableEq, Repr

/-- Draw k distinct elements from the pool; the draw at each step is an
arbitrary random value supplied by rng, reduced modulo the remaining pool
size, so the model ranges over every possible behavior of the random
sampler. -/
def sampleList (rng : Nat → Nat) : Nat → List String → List String
  | 0, _ => []
  | Nat.succ k, pool =>
      if h : pool.length = 0 then []
      else
        let i : Fin pool.length := ⟨rng k % pool.length, Nat.mod_lt _ (Nat.pos_of_ne_zero h)⟩
        let x := pool.get i
        x :: sampleList rng k (pool.erase x)

/-- Modelled from the spec: RandomStarter.select — truncate the candidate
stream to max_to_consider when set, then sample max(count, min_to_select)
distinct items from the remaining pool. -/
def RandomStarter.select (s : RandomStarter) (rng : Nat → Nat)
    (to_select : List String) (count : Nat) : List String :=
  let pool := match s.max_to_consider with
    | some m => to_select.take m
    | none => to_select
  sampleList rng (max count s.min_to_select) pool

/-- Python pathlib.Path construction as used by BaseSimulator.__init__:
defined on str and Path arguments (collapsed to String here), raises
TypeError when applied to None. -/
def pathOf : Option String → Except String String
  | none => .error "TypeError: argument should be a str or an os.PathLike object, not NoneType"
  | some s => .ok s

/-- BaseSimulator from examol.simulate.base: holds the scratch directory. -/
structure BaseSimulator where
  scratch_dir : String
deriving DecidableEq, Repr

/-- BaseSimulator.__init__ from examol.simulate.base: unconditionally
applies Path to the scratch_dir argument before storing it, so the
construction is fallible exactly where Path is. -/
def BaseSimulator.init (scratch_dir : Option String) : Except String BaseSimulator :=
  match pathOf scratch_dir with
  | .error e => .error e
  | .ok p => .ok ⟨p⟩

/-- The learning-labeled executor of the split compute configuration. -/
def execLearning : ExecutorDescriptor := ⟨some "learning", 1⟩

/-- The simulation-labeled executor of the split compute configuration. -/
def execSimulation : ExecutorDescriptor := ⟨some "simulation", 1⟩

/-- An unlabeled single-worker executor (catch-all). -/
def execAny : ExecutorDescriptor := ⟨none, 1⟩

/-- A fresh run directory: no cache descriptor or artifact on disk yet. -/
def emptyCache : CacheState := ⟨none, none⟩

/-- A concrete specification with two labeled executors matching the two
required topics, as in the split-config scenario. -/
def specSplit : ExaMolSpecification :=
  ⟨.file [⟨"CC"⟩, ⟨"O"⟩, ⟨"N"⟩], ["search.smi"], ⟨["learning", "simulation"], 2⟩,
   ⟨[execLearning, execSimulation]⟩, .noProxy, ⟨8⟩, "run"⟩

/-- A concrete specification whose solution declares a train topic, with a
single catch-all executor. -/
def specTrain : ExaMolSpecification :=
  ⟨.file [⟨"CC"⟩, ⟨"O"⟩, ⟨"N"⟩], ["search.smi"], ⟨["train", "simulation"], 2⟩,
   ⟨[execAny]⟩, .noProxy, ⟨8⟩, "run"⟩

/-- Project the doer out of an assemble result (dummy on failure). -/
def doerOf (r : Except ConfigurationError (QueueSystem × Thinker × List MoleculeRecord)
    × CacheState) : QueueSystem :=
  match r.1 with
  | .ok (d, _, _) => d
  | .error _ => ⟨[], [], [], []⟩

/-- Project the thinker out of an assemble result (dummy on failure). -/
def thinkerOf (r : Except ConfigurationError (QueueSystem × Thinker × List MoleculeRecord)
    × CacheState) : Thinker :=
  match r.1 with
  | .ok (_, th, _) => th
  | .error _ => ⟨⟨[], [], [], []⟩, ⟨⟨[], [], 0⟩⟩⟩

/-- Project the store out of an assemble result (dummy on failure). -/
def storeOf (r : Except ConfigurationError (QueueSystem × Thinker × List MoleculeRecord)
    × CacheState) : List MoleculeRecord :=
  match r.1 with
  | .ok (_, _, s) => s
  | .error _ => []

/-! Helper lemmas about the sampler. -/

theorem sampleList_length (rng : Nat → Nat) (k : Nat) :
    ∀ (pool : List String), (sampleList rng k pool).length = min k pool.length := by
  induction k with
  | zero => intro pool; simp [sampleList]
  | succ k ih =>
      intro pool
      rw [sampleList]
      by_cases h : pool.length = 0
      · simp [h]
      · rw [dif_neg h]
        have hmem : pool.get ⟨rng k % pool.length, Nat.mod_lt _ (Nat.pos_of_ne_zero h)⟩ ∈ pool :=
          List.get_mem pool _ _
        have hlen : (pool.erase (pool.get ⟨rng k % pool.length,
            Nat.mod_lt _ (Nat.pos_of_ne_zero h)⟩)).length + 1 = pool.length :=
          List.length_erase_add_one hmem
        simp only [List.length_cons, ih]
        omega

theorem mem_sampleList (rng : Nat → Nat) (k : Nat) :
    ∀ (pool : List String) (x : String), x ∈ sampleList rng k pool → x ∈ pool := by
  induction k with
  | zero => intro pool x hx; simp [sampleList] at hx
  | succ k ih =>
      intro pool x hx
      rw [sampleList] at hx
      by_cases h : pool.length = 0
      · rw [dif_pos h] at hx; simp at hx
      · rw [dif_neg h] at hx
        rcases List.mem_cons.mp hx with heq | htail
        · exact heq ▸ List.get_mem pool _ _
        · exact List.erase_subset _ _ (ih _ _ htail)

theorem sampleList_nodup (rng : Nat → Nat) (k : Nat) :
    ∀ (pool : List String), pool.Nodup → (sampleList rng k pool).Nodup := by
  induction k with
  | zero => intro pool _; simp [sampleList]
  | succ k ih =>
      intro pool hnd
      rw [sampleList]
      by_cases h : pool.length = 0
      · simp [h]
      · rw [dif_neg h]
        refine List.nodup_cons.mpr ⟨?_, ih _ (hnd.erase _)⟩
        intro hmem
        have := mem_sampleList rng k _ _ hmem
        rw [List.Nodup.mem_erase_iff hnd] at this
        exact this.1 rfl

/-- C8: the bounded random sampler — for every behavior of the random
source, sampling 3 items from a stream of 10 unique items with
RandomStarter(1, 2) yields exactly 3 distinct items, and with a
maximum-candidate-pool limit of 5 over a stream of 1000 items, every
sampled item is one of the first five stream elements (its stream index is
strictly below 5). -/
theorem randomStarter_bounded_sampler :
    ∀ rng : Nat → Nat,
      ((RandomStarter.mk 1 2 none).select rng ((List.range 10).map toString) 3).length = 3 ∧
      ((RandomStarter.mk 1 2 none).select rng ((List.range 10).map toString) 3).Nodup ∧
      ∀ x ∈ (RandomStarter.mk 1 3 (some 5)).select rng ((List.range 1000).map toString) 1,
        x ∈ ["0", "1", "2", "3", "4"] := by
  intro rng
  have hpool10 : ((List.range 10).map toString).Nodup := by decide
  refine ⟨?_, ?_, ?_⟩
  · rw [RandomStarter.select, sampleList_length]
    simp
  · exact sampleList_nodup rng _ _ hpool10
  · intro x hx
    rw [RandomStarter.select] at hx
    have hmem : x ∈ ((List.range 1000).map toString).take 5 := mem_sampleList rng _ _ x hx
    have htake : (((List.range 1000).map toString).take 5) = ["0", "1", "2", "3", "4"] := by
      rw [← List.map_take, List.take_range]
      decide
    rw [htake] at hmem
    exact hmem

/-- C9: RandomStarter.select pads the sample up to the configured minimum —
with minimum 3 and a requested count of 1 over a stream of at least 3
unique candidates, the sample has 3 distinct items, and in general the
sample size is the maximum of the requested count and the minimum, capped
at the pool size. -/
theorem randomStarter_select_pads (rng : Nat → Nat) (pool : List String) (count : Nat)
    (hnd : pool.Nodup) (hlen : 3 ≤ pool.length) :
    ((RandomStarter.mk 1 3 none).select rng pool 1).length = 3 ∧
    ((RandomStarter.mk 1 3 none).select rng pool 1).Nodup ∧
    ((RandomStarter.mk 1 3 none).select rng pool count).length =
      min (max count 3) pool.length := by
  refine ⟨?_, ?_, ?_⟩
  · rw [RandomStarter.select, sampleList_length]
    simp only [max_def]
    split <;> omega
  · exact sampleList_nodup rng _ _ hnd
  · rw [RandomStarter.select, sampleList_length]

/-- Witness for C9 at a concrete pool and random source. -/
theorem randomStarter_select_pads_witness :
    (["a", "b", "c"] : List String).Nodup ∧ 3 ≤ (["a", "b", "c"] : List String).length ∧
    (((RandomStarter.mk 1 3 none).select (fun _ => 0) ["a", "b", "c"] 1).length = 3 ∧
     ((RandomStarter.mk 1 3 none).select (fun _ => 0) ["a", "b", "c"] 1).Nodup ∧
     ((RandomStarter.mk 1 3 none).select (fun _ => 0) ["a", "b", "c"] 2).length =
       min (max 2 3) (["a", "b", "c"] : List String).length) :=
  ⟨by decide, by decide,
    randomStarter_select_pads (fun _ => 0) ["a", "b", "c"] 2 (by decide) (by decide)⟩

set_option maxRecDepth 8192 in
/-- Witness for C8 at a concrete random source and sampled item. -/
theorem randomStarter_bounded_sampler_witness :
    ("0" : String) ∈ ["0", "1", "2", "3", "4"] :=
  (randomStarter_bounded_sampler (fun _ => 0)).2.2 "0" (by decide)

/-! Helper lemmas about the in-memory record index. -/

theorem containsId_insert (db : List MoleculeRecord) (r : MoleculeRecord) (k : String) :
    containsId (insertRecord db r) k = true ↔ (k = r.identifier ∨ containsId db k = true) := by
  simp only [containsId, insertRecord, List.any_append, List.any_eq_true, List.mem_filter,
    Bool.or_eq_true, List.any_cons, List.any_nil, Bool.or_false, beq_iff_eq,
    decide_eq_true_eq]
  constructor
  · rintro (⟨x, ⟨hx, hne⟩, hk⟩ | hk)
    · exact Or.inr ⟨x, hx, hk⟩
    · exact Or.inl hk.symm
  · rintro (hk | ⟨x, hx, hk⟩)
    · exact Or.inr hk.symm
    · by_cases hsame : x.identifier = r.identifier
      · exact Or.inr (hsame.symm.trans hk)
      · exact Or.inl ⟨x, ⟨hx, hsame⟩, hk⟩

theorem length_insert_of_not_contains (db : List MoleculeRecord) (r : MoleculeRecord)
    (h : containsId db r.identifier = false) :
    (insertRecord db r).length = db.length + 1 := by
  have hfix : db.filter (fun x => x.identifier ≠ r.identifier) = db := by
    rw [List.filter_eq_self]
    intro x hx
    simp only [ne_eq, decide_eq_true_eq]
    intro hcon
    have hc : containsId db r.identifier = true := by
      simp only [containsId, List.any_eq_true, beq_iff_eq]
      exact ⟨x, hx, hcon⟩
    rw [hc] at h
    exact Bool.true_eq_false.mp h
  rw [insertRecord, List.length_append, hfix]
  rfl

theorem loadAux_contains (l : List MoleculeRecord) :
    ∀ (db : List MoleculeRecord) (k : String),
    containsId (l.foldl insertRecord db) k = true ↔
      (containsId db k = true ∨ k ∈ l.map MoleculeRecord.identifier) := by
  induction l with
  | nil => intro db k; simp
  | cons r rest ih =>
      intro db k
      simp only [List.foldl_cons, ih, containsId_insert, List.map_cons, List.mem_cons]
      tauto

theorem loadAux_length (l : List MoleculeRecord) :
    ∀ (db : List MoleculeRecord),
    (∀ r ∈ l, containsId db r.identifier = false) →
    (l.map MoleculeRecord.identifier).Nodup →
    (l.foldl insertRecord db).length = db.length + l.length := by
  induction l with
  | nil => intro db _ _; simp
  | cons r rest ih =>
      intro db hfresh hnd
      simp only [List.foldl_cons]
      have hfresh0 : containsId db r.identifier = false := hfresh r (List.mem_cons_self r rest)
      have hrest : ∀ x ∈ rest, containsId (insertRecord db r) x.identifier = false := by
        intro x hx
        have hx1 : containsId db x.identifier = false := hfresh x (List.mem_cons_of_mem r hx)
        have hx2 : x.identifier ≠ r.identifier := by
          intro he
          have : r.identifier ∈ rest.map MoleculeRecord.identifier :=
            he ▸ List.mem_map_of_mem MoleculeRecord.identifier hx
          simp only [List.map_cons, List.nodup_cons] at hnd
          exact hnd.1 this
        rw [Bool.eq_false_iff]
        intro hcon
        rcases (containsId_insert db r x.identifier).mp hcon with he | hc
        · exact hx2 he
        · simp [hx1] at hc
      have := ih (insertRecord db r) hrest
        (by simp only [List.map_cons, List.nodup_cons] at hnd; exact hnd.2)
      rw [this, length_insert_of_not_contains db r hfresh0]
      simp [List.length_cons]
      omega

theorem loadRecords_spec (l : List MoleculeRecord)
    (hnd : (l.map MoleculeRecord.identifier).Nodup) :
    (loadRecords l).length = l.length ∧
    ∀ k, containsId (loadRecords l) k = true ↔ k ∈ l.map MoleculeRecord.identifier := by
  constructor
  · have := loadAux_length l [] (by intro r _; rfl) hnd
    simpa [loadRecords] using this
  · intro k
    rw [loadRecords, loadAux_contains]
    simp [containsId]

theorem overwrite_semantics (db : List MoleculeRecord) (r : MoleculeRecord) :
    (insertRecord db r).filter (fun x => x.identifier == r.identifier) = [r] := by
  simp only [insertRecord, List.filter_append]
  have h1 : (db.filter (fun x => x.identifier ≠ r.identifier)).filter
      (fun x => x.identifier == r.identifier) = [] := by
    rw [List.filter_filter]
    apply List.filter_eq_nil_iff.mpr
    intro x _
    simp only [beq_iff_eq, ne_eq, Bool.and_eq_true, decide_eq_true_eq]
    tauto
  rw [h1]
  simp

/-- C4: DatabaseLoader.open — a record file for molecules CC, O, N, in any
input order, opens to an in-memory store of length 3 whose identifier-based
membership test succeeds for each of the three identifiers; an
already-constructed store object is used as-is; within the index a later
record with an existing identifier overwrites the earlier entry, so exactly
the latest record is stored under that identifier. -/
theorem databaseLoader_open (l : List MoleculeRecord)
    (hperm : l.Perm [⟨"CC"⟩, ⟨"O"⟩, ⟨"N"⟩]) :
    (openDatabase (.file l)).length = 3 ∧
    containsId (openDatabase (.file l)) "CC" = true ∧
    containsId (openDatabase (.file l)) "O" = true ∧
    containsId (openDatabase (.file l)) "N" = true ∧
    (∀ s, openDatabase (.store s) = s) ∧
    (∀ (db : List MoleculeRecord) (r : MoleculeRecord),
      (insertRecord db r).filter (fun x => x.identifier == r.identifier) = [r]) := by
  have hmap : (l.map MoleculeRecord.identifier).Perm ["CC", "O", "N"] := by
    simpa using hperm.map MoleculeRecord.identifier
  have hnd : (l.map MoleculeRecord.identifier).Nodup := hmap.nodup_iff.mpr (by decide)
  obtain ⟨hlen, hmem⟩ := loadRecords_spec l hnd
  refine ⟨?_, ?_, ?_, ?_, fun s => rfl, overwrite_semantics⟩
  · show (loadRecords l).length = 3
    rw [hlen, hperm.length_eq]
    rfl
  · exact (hmem "CC").mpr (hmap.mem_iff.mpr (by decide))
  · exact (hmem "O").mpr (hmap.mem_iff.mpr (by decide))
  · exact (hmem "N").mpr (hmap.mem_iff.mpr (by decide))

/-- Witness for C4 at a concrete input order. -/
theorem databaseLoader_open_witness :
    (openDatabase (.file [⟨"CC"⟩, ⟨"O"⟩, ⟨"N"⟩])).length = 3 :=
  (databaseLoader_open [⟨"CC"⟩, ⟨"O"⟩, ⟨"N"⟩] (List.Perm.refl _)).1

/-- C6: on every exit path of the assemble scope — a body that returns
normally and a body that raises — the queue system passes through
Started, Draining, Stopped in that order, the final state is Stopped with
the store closed, and a body error propagates only after teardown. -/
theorem assembleScope_always_stopped :
    ∀ bodyOk : Bool,
      (runAssembleScope bodyOk).1 = ⟨QState.stopped, false⟩ ∧
      scopeTrace bodyOk =
        [QState.created, QState.created, QState.started, QState.started,
         QState.draining, QState.stopped, QState.stopped] ∧
      (runAssembleScope bodyOk).2.isSome = !bodyOk := by
  intro bodyOk
  cases bodyOk <;> exact ⟨rfl, rfl, rfl⟩

/-- C10: BaseSimulator.__init__ applies Path unconditionally, so
constructing a BaseSimulator with scratch_dir None always fails with a
TypeError rather than storing a None scratch directory, while a string
scratch directory constructs successfully. -/
theorem baseSimulator_scratchDir_none_raises :
    (∃ e, BaseSimulator.init none = Except.error e) ∧
    ∀ s : String, BaseSimulator.init (some s) = Except.ok ⟨s⟩ :=
  ⟨⟨_, rfl⟩, fun _ => rfl⟩

/-! Helper lemma about association lookup over mapped topics. -/

theorem lookup_map_pair (f : Topic → Option String) :
    ∀ (topics : List Topic) (t : Topic), t ∈ topics →
      (topics.map fun u => (u, f u)).lookup t = some (f t) := by
  intro topics
  induction topics with
  | nil => intro t ht; simp at ht
  | cons a rest ih =>
      intro t ht
      simp only [List.map_cons, List.lookup_cons]
      by_cases he : t = a
      · subst he; simp
      · have hbeq : (t == a) = false := beq_eq_false_iff_ne.mpr he
        rw [hbeq]
        simp only [Bool.false_eq_true, if_false]
        exact ih t (List.mem_cons.mp ht |>.resolve_left he)

/-- C3: TransportBinding.resolve is total on the three valid shapes — with
no binding every required topic resolves to no store name, with a single
global store every topic resolves to that store name, with a mapping a
topic resolves to its bound store name exactly when it is present in the
mapping and to none otherwise — and any other input shape fails with a
configuration error. -/
theorem transportBinding_resolve (topics : List Topic) (t : Topic) (s : StoreInst)
    (m : List (Topic × StoreInst)) (ht : t ∈ topics) :
    (∃ r, resolveTransport .noProxy topics = .ok r ∧ r.lookup t = some none) ∧
    (∃ r, resolveTransport (.single s) topics = .ok r ∧ r.lookup t = some (some s.name)) ∧
    (∃ r, resolveTransport (.mapping m) topics = .ok r ∧
      r.lookup t = some ((m.lookup t).map StoreInst.name)) ∧
    resolveTransport .invalid topics = .error .invalidTransportShape := by
  refine ⟨⟨_, rfl, ?_⟩, ⟨_, rfl, ?_⟩, ⟨_, rfl, ?_⟩, rfl⟩
  · exact lookup_map_pair (fun _ => none) topics t ht
  · exact lookup_map_pair (fun _ => some s.name) topics t ht
  · exact lookup_map_pair (fun u => (m.lookup u).map StoreInst.name) topics t ht

/-- Witness for C3 at a concrete binding and topic set. -/
theorem transportBinding_resolve_witness :
    resolveTransport ProxySpec.invalid ["inference", "train"] =
      .error ConfigurationError.invalidTransportShape :=
  (transportBinding_resolve ["inference", "train"] "inference" ⟨"file"⟩
    [("inference", ⟨"file"⟩)] (by decide)).2.2.2

/-- C1: ExecutorTopologyResolver.resolve follows the exact precedence —
when every required topic has a label match, each topic receives its
matching executors; otherwise, when exactly one unlabeled executor exists,
every unassigned topic receives it; otherwise, when exactly one executor
exists in the whole config, every topic receives it regardless of label;
otherwise resolution fails with a configuration error naming the
unassigned topics. With the two executors labeled learning and simulation
matching the two required topics, assembly succeeds and the doer observes
exactly two executors, one per topic. -/
theorem executorTopology_precedence (execs : List ExecutorDescriptor)
    (topics : List Topic) (c e : ExecutorDescriptor) :
    (topics.filter (fun t => (matchedFor execs t).isEmpty) = [] →
      resolveTopology execs topics = .ok (topics.map fun t => (t, matchedFor execs t))) ∧
    (topics.filter (fun t => (matchedFor execs t).isEmpty) ≠ [] →
      unlabeledOf execs = [c] →
      resolveTopology execs topics =
        .ok (topics.map fun t =>
          (t, if (matchedFor execs t).isEmpty then [c] else matchedFor execs t))) ∧
    (topics.filter (fun t => (matchedFor execs t).isEmpty) ≠ [] →
      (unlabeledOf execs).length ≠ 1 →
      execs = [e] →
      resolveTopology execs topics = .ok (topics.map fun t => (t, [e]))) ∧
    (topics.filter (fun t => (matchedFor execs t).isEmpty) ≠ [] →
      (unlabeledOf execs).length ≠ 1 →
      execs.length ≠ 1 →
      resolveTopology execs topics =
        .error (.unassignedTopics (topics.filter fun t => (matchedFor execs t).isEmpty))) ∧
    (∃ d th s, (assemble specSplit emptyCache).1 = .ok (d, th, s) ∧
      d.executors.length = 2 ∧
      d.assignment = [("learning", [execLearning]), ("simulation", [execSimulation])]) := by
  refine ⟨?_, ?_, ?_, ?_, ?_⟩
  · intro h
    rw [resolveTopology]
    simp only [h, List.isEmpty_nil, if_true]
  · intro h hu
    rw [resolveTopology]
    rw [if_neg (by simpa [List.isEmpty_iff] using h)]
    rw [if_pos (by rw [hu]; rfl)]
    rw [hu]
    rfl
  · intro h hu he
    rw [resolveTopology]
    rw [if_neg (by simpa [List.isEmpty_iff] using h)]
    rw [if_neg hu]
    rw [if_pos (by rw [he]; rfl)]
    rw [he]
    rfl
  · intro h hu he
    rw [resolveTopology]
    rw [if_neg (by simpa [List.isEmpty_iff] using h)]
    rw [if_neg hu, if_neg he]
  · exact ⟨_, _, _, rfl, rfl, rfl⟩

/-- Witness for C1: the split configuration resolves one executor per
matching topic, and a lone unlabeled executor is the catch-all for all
unmatched topics. -/
theorem executorTopology_precedence_witness :
    resolveTopology [execLearning, execSimulation] ["learning", "simulation"] =
      .ok [("learning", [execLearning]), ("simulation", [execSimulation])] ∧
    resolveTopology [execAny] ["train", "simulation"] =
      .ok [("train", [execAny]), ("simulation", [execAny])] := by
  constructor
  · have h := (executorTopology_precedence [execLearning, execSimulation]
      ["learning", "simulation"] execAny execAny).1 (by decide)
    exact h.trans (by rfl)
  · have h := (executorTopology_precedence [execAny] ["train", "simulation"]
      execAny execAny).2.1 (by decide) (by decide)
    exact h.trans (by rfl)

/-! Helper lemmas about the search-space cache. -/

theorem getOrBuild_idem (st : CacheState) (s : CacheSettings) :
    getOrBuild (getOrBuild st s).2 s = getOrBuild st s := by
  rcases st with ⟨_ | d, _ | a⟩
  · simp [getOrBuild]
  · simp [getOrBuild]
  · simp [getOrBuild]
  · by_cases h : d.fp = fingerprint s
    · simp [getOrBuild, h]
    · simp [getOrBuild, h]

theorem getOrBuild_shape (st : CacheState) (s : CacheSettings) :
    ∃ d a, (getOrBuild st s).2 = ⟨some d, some a⟩ ∧ d.fp = fingerprint s := by
  rcases st with ⟨_ | d, _ | a⟩
  · exact ⟨_, _, rfl, rfl⟩
  · exact ⟨_, _, rfl, rfl⟩
  · exact ⟨_, _, rfl, rfl⟩
  · by_cases h : d.fp = fingerprint s
    · refine ⟨d, a, ?_, h⟩
      simp [getOrBuild, h]
    · refine ⟨⟨fingerprint s, s⟩, buildArtifact s, ?_, rfl⟩
      simp [getOrBuild, h]

theorem getOrBuild_stale (st : CacheState) (s s2 : CacheSettings) (hne : s2 ≠ s) :
    (getOrBuild (getOrBuild st s).2 s2).2.descriptor ≠ (getOrBuild st s).2.descriptor := by
  obtain ⟨d, a, hst, hfp⟩ := getOrBuild_shape st s
  rw [hst]
  have hcond : ¬ d.fp = fingerprint s2 := by
    rw [hfp]
    exact fun h => hne h.symm
  have hgb : getOrBuild ⟨some d, some a⟩ s2 =
      (buildArtifact s2, ⟨some ⟨fingerprint s2, s2⟩, some (buildArtifact s2)⟩) := by
    rw [getOrBuild]
    simp only [if_neg hcond]
  rw [hgb]
  intro hcon
  have hd : (⟨fingerprint s2, s2⟩ : CacheDescriptor) = d := Option.some.inj hcon
  rw [← hd] at hcond
  exact hcond rfl

theorem assemble_cacheState (spec : ExaMolSpecification) (st : CacheState) :
    (assemble spec st).2 = (getOrBuild st (settingsOf spec)).2 := by
  rw [assemble]
  split
  · rfl
  · split
    · rfl
    · rfl

/-- C2: the search-space cache is idempotent and fingerprint-keyed — a
second assemble call with unchanged settings leaves the cache descriptor
identical (and, on a fingerprint hit, get_or_build returns the cached
artifact with the on-disk state unchanged), while changing the inference
chunk size of the thinker options produces a different descriptor on the
next assemble call. -/
theorem searchSpaceCache_fingerprint (spec : ExaMolSpecification) (st0 : CacheState)
    (n : Nat) (hne : n ≠ spec.thinker_options.inference_chunk_size) :
    (assemble spec (assemble spec st0).2).2.descriptor = (assemble spec st0).2.descriptor ∧
    (assemble { spec with thinker_options := ⟨n⟩ } (assemble spec st0).2).2.descriptor ≠
      (assemble spec st0).2.descriptor ∧
    (∀ (st : CacheState) (d : CacheDescriptor) (a : Artifact),
      st.descriptor = some d → st.artifact = some a →
      d.fp = fingerprint (settingsOf spec) →
      getOrBuild st (settingsOf spec) = (a, st)) := by
  refine ⟨?_, ?_, ?_⟩
  · simp only [assemble_cacheState]
    rw [getOrBuild_idem]
  · simp only [assemble_cacheState]
    apply getOrBuild_stale
    intro h
    apply hne
    have := congrArg CacheSettings.inference_chunk_size h
    simpa [settingsOf] using this
  · intro st d a hd ha hfp
    rcases st with ⟨sd, sa⟩
    simp only at hd ha
    subst hd
    subst ha
    simp [getOrBuild, hfp]

/-- Witness for C2 at a concrete specification, fresh cache and changed
chunk size. -/
theorem searchSpaceCache_fingerprint_witness :
    (assemble specSplit (assemble specSplit emptyCache).2).2.descriptor =
      (assemble specSplit emptyCache).2.descriptor ∧
    (assemble { specSplit with thinker_options := ⟨2⟩ }
        (assemble specSplit emptyCache).2).2.descriptor ≠
      (assemble specSplit emptyCache).2.descriptor :=
  ⟨(searchSpaceCache_fingerprint specSplit emptyCache 2 (by decide)).1,
   (searchSpaceCache_fingerprint specSplit emptyCache 2 (by decide)).2.1⟩

/-- C5: whenever assemble succeeds on a specification whose solution
declares a train topic, the resulting doer's queue topics include train —
the topic set comes from the solution strategy. -/
theorem assemble_train_topic (spec : ExaMolSpecification) (st : CacheState)
    (d : QueueSystem) (th : Thinker) (store : List MoleculeRecord)
    (hok : (assemble spec st).1 = Except.ok (d, th, store))
    (htrain : "train" ∈ spec.solution.topics) :
    "train" ∈ d.topics := by
  rw [assemble] at hok
  split at hok
  · exact absurd hok (by simp)
  · split at hok
    · exact absurd hok (by simp)
    · simp only [Except.ok.injEq, Prod.mk.injEq] at hok
      obtain ⟨hd, -, -⟩ := hok
      rw [← hd]
      exact htrain

/-- Witness for C5 at a concrete specification declaring a train topic. -/
theorem assemble_train_topic_witness :
    "train" ∈ (doerOf (assemble specTrain emptyCache)).topics :=
  assemble_train_topic specTrain emptyCache (doerOf (assemble specTrain emptyCache))
    (thinkerOf (assemble specTrain emptyCache)) (storeOf (assemble specTrain emptyCache))
    rfl (by decide)

/-- C7: a specification is immutable once assembled — assemble takes the
configuration by value and never hands back a modified one, so re-running
assemble on the same specification re-derives the identical runtime
topology and leaves the cache state fixed. -/
theorem specification_immutable (spec : ExaMolSpecification) (st0 : CacheState) :
    assemble spec (assemble spec st0).2 = assemble spec st0 := by
  have h1 : (assemble spec st0).2 = (getOrBuild st0 (settingsOf spec)).2 :=
    assemble_cacheState spec st0
  rw [h1]
  have h2 : getOrBuild (getOrBuild st0 (settingsOf spec)).2 (settingsOf spec) =
      getOrBuild st0 (settingsOf spec) := getOrBuild_idem st0 (settingsOf spec)
  simp only [assemble]
  rw [h2]

end ExaMol
